import Mathlib

/-!
Shallow embedding of the l3-37 connection pool (src/src/queue.rs, src/src/lib.rs,
src/src/conn.rs) and proofs about it.

Counters in the Rust source are `AtomicUsize` on a 64-bit target; `fetch_add` and
`fetch_sub` wrap modulo `2 ^ 64` and never panic.  The embedding models them as
`Nat` with explicit wrapping where the source instruction wraps.

The source crate also has modules `inner.rs`, `error.rs` and `manage_connection.rs`
that are not present under src/; the parts of them this development needs
(the `ConnectionPool` delegations and `InternalError`) are modelled from the
spec where so marked.
-/

namespace L337

/-- Number of values of the Rust `usize` type on a 64-bit target. -/
def USIZE : Nat := 2 ^ 64

/-- Wrapping increment of a `usize` counter: models the value written back by
`AtomicUsize::fetch_add(1, Ordering::SeqCst)`. -/
def usizeAdd1 (n : Nat) : Nat := (n + 1) % USIZE

/-- Wrapping decrement of a `usize` counter: models the value written back by
`AtomicUsize::fetch_sub(1, Ordering::SeqCst)`; a decrement from 0 wraps to
`usize::MAX = 2 ^ 64 - 1`. -/
def usizeSub1 (n : Nat) : Nat := if n = 0 then USIZE - 1 else n - 1

/-- The `Live<T>` (src/src/queue.rs): a connection carrying the instant it became live.
`Instant` values are modelled as natural-number timestamps. -/
structure Live (C : Type) where
  conn : C
  live_since : Nat
deriving Repr, DecidableEq

/-- The `Live::new` (src/src/queue.rs); the `Instant::now()` call is passed in as `now`. -/
def Live.new {C : Type} (conn : C) (now : Nat) : Live C :=
  { conn := conn, live_since := now }

/-- The `Idle<T>` (src/src/queue.rs): an idle connection with the instant it went idle. -/
structure Idle (C : Type) where
  conn : Live C
  idle_since : Nat
deriving Repr, DecidableEq

/-- The `Idle::new` (src/src/queue.rs). -/
def Idle.new {C : Type} (conn : Live C) (now : Nat) : Idle C :=
  { conn := conn, idle_since := now }

/-- The `Queue<C>` (src/src/queue.rs): the idle store (a `SegQueue`, i.e. a FIFO,
modelled as a list with push at the back and pop at the front) and the two
atomic counters. -/
structure Queue (C : Type) where
  idle : List (Idle C)
  idle_count : Nat
  total_count : Nat
deriving Repr, DecidableEq

namespace Queue

variable {C : Type}

/-- The `Queue::new` (src/src/queue.rs): empty store, both counters 0. -/
def new : Queue C :=
  { idle := [], idle_count := 0, total_count := 0 }

/-- The `Queue::total` (src/src/queue.rs): SeqCst load of `total_count`. -/
def total (q : Queue C) : Nat := q.total_count

/-- The `Queue::idle` the accessor (src/src/queue.rs): SeqCst load of `idle_count`.
Named `idleRead` here because the field `idle` already uses the source name. -/
def idleRead (q : Queue C) : Nat := q.idle_count

/-- The `Queue::store` (src/src/queue.rs): increment `idle_count`, push onto the idle
store. Does NOT touch `total_count`. -/
def store (q : Queue C) (conn : Live C) (now : Nat) : Queue C :=
  { q with idle_count := usizeAdd1 q.idle_count, idle := q.idle ++ [Idle.new conn now] }

/-- The `Queue::get` (src/src/queue.rs): try to pop the front of the idle store; on a
hit, decrement `idle_count` and strip the `Idle` wrapper. Returns the popped
connection (if any) together with the queue after the operation. -/
def get (q : Queue C) : Option (Live C) × Queue C :=
  match q.idle with
  | [] => (none, q)
  | i :: rest => (some i.conn, { q with idle := rest, idle_count := usizeSub1 q.idle_count })

/-- The `Queue::increment` (src/src/queue.rs): unconditional `fetch_add(1)` on
`total_count`. -/
def increment (q : Queue C) : Queue C :=
  { q with total_count := usizeAdd1 q.total_count }

/-- The `Queue::decrement` (src/src/queue.rs): unconditional `fetch_sub(1)` on
`total_count` (the `idle_count` decrement is commented out in the source). -/
def decrement (q : Queue C) : Queue C :=
  { q with total_count := usizeSub1 q.total_count }

/-- The `Queue::new_conn` (src/src/queue.rs): `store` followed by `increment`. -/
def new_conn (q : Queue C) (conn : Live C) (now : Nat) : Queue C :=
  (q.store conn now).increment

/-- The `Queue::safe_increment` (src/src/queue.rs), sequential semantics of the CAS
loop: with no interference the first `compare_exchange` succeeds whenever
`curr_count < max`, writing `curr_count + 1` (which cannot overflow, since
`curr_count < max ≤ usize::MAX`); otherwise the loop exits with `None` and the
counter is untouched. -/
def safe_increment (q : Queue C) (max : Nat) : Option (Queue C) :=
  if q.total_count < max then some { q with total_count := q.total_count + 1 } else none

end Queue

/-- The `InternalError` (src/src/error.rs). Modelled from the spec: error.rs is absent
from src/; per the spec, `InternalError` "carries at minimum a text payload", and
lib.rs constructs it via `InternalError::Other(String)`. -/
inductive InternalError where
  | Other (msg : String)
deriving Repr, DecidableEq

/-- The `Error<E>` (src/src/lib.rs): pool errors are either internal or bubbled
verbatim from the manager. -/
inductive Error (E : Type) where
  | Internal (e : InternalError)
  | External (e : E)
deriving Repr, DecidableEq

/-- The `Config` (src/src/lib.rs). -/
structure Config where
  min_size : Nat
  max_size : Nat
deriving Repr, DecidableEq

/-- The `ManageConnection` implementation seen by the pool, as an oracle:
`connectResults n` is the result of the `n`-th `manager.connect()` call
(indexed by the order the pool issues them) and `hasBroken` is
`manager.has_broken` (its `&mut` access is modelled as read-only: nothing the
pool observes depends on a mutation of the session by the probe).
`manage_connection.rs` is absent from src/; the trait's shape is taken from the
spec's Manager capability table and the test impl in lib.rs, where `connect`
returns `Result<Connection, Error<E>>`. -/
structure Manager (C E : Type) where
  connectResults : Nat → Except (Error E) C
  hasBroken : C → Bool

/-- A waiter sender held by the inner pool: the one-shot channel identity and
whether its receiving end is still alive (a send succeeds exactly when it is). -/
structure Waiter where
  id : Nat
  alive : Bool
deriving Repr, DecidableEq

/-- State of the inner pool (`ConnectionPool` in the absent inner.rs, modelled
from the spec: `{ queue, manager, min_size, max_size, waiters: FIFO of
Waiter-sender }`), plus two ghost fields used only to state properties:
`connectCalls` counts `manager.connect()` invocations and `nextWaiter` supplies
fresh one-shot channel identities. -/
structure PoolSt (C : Type) where
  conns : Queue C
  waiters : List Waiter
  min_size : Nat
  max_size : Nat
  connectCalls : Nat
  nextWaiter : Nat
deriving Repr, DecidableEq

/-- The `ConnectionPool::try_waiting` (absent inner.rs). Modelled from the spec:
"try_waiting() → Option<sender>: pops from head of FIFO". The put_back loop
`while let Some(waiting) = try_waiting() { waiting.send(..) }` keeps popping
while sends fail, so its net effect is: pop dead waiters off the front until the
first live one (delivered, removed) or the list is exhausted. `popWaiters`
computes that net effect: the first live waiter id, and the remaining list. -/
def popWaiters : List Waiter → Option Nat × List Waiter
  | [] => (none, [])
  | w :: rest => if w.alive then (some w.id, rest) else popWaiters rest

/-- Outcome of one `Pool::put_back` reclamation task. -/
inductive ReleaseOutcome where
  | discarded
  | delivered (w : Nat)
  | stored
deriving Repr, DecidableEq

/-- The `Pool::put_back` (src/src/lib.rs), the body of the spawned reclamation task:
probe `has_broken`; if broken, `conns.decrement()` and drop the session;
otherwise offer the session to waiters in FIFO order, and if no send succeeds,
`conns.store` it. -/
def put_back {C E : Type} (m : Manager C E) (st : PoolSt C) (conn : Live C) (now : Nat) :
    ReleaseOutcome × PoolSt C :=
  let broken := m.hasBroken conn.conn
  if broken then
    (.discarded, { st with conns := st.conns.decrement })
  else
    match popWaiters st.waiters with
    | (some w, rest) => (.delivered w, { st with waiters := rest })
    | (none, rest) => (.stored, { st with conns := st.conns.store conn now, waiters := rest })

/-- The `Pool::try_spawn_connection` (src/src/lib.rs): reserve a slot with
`safe_increment(max_size)`; if that succeeds, call `connect()` (whose result is
the `connectResult` argument) and on error undo the reservation with
`decrement()`; if the reservation fails, return `none` without calling
`connect()`. Returns the `Option<Result<Live, Error>>` of the source together
with the queue after the operation. -/
def try_spawn_connection {C E : Type} (max : Nat) (connectResult : Except (Error E) C)
    (conns : Queue C) (now : Nat) : Option (Except (Error E) (Live C)) × Queue C :=
  match conns.safe_increment max with
  | some conns1 =>
    match connectResult with
    | .ok conn => (some (.ok (Live.new conn now)), conns1)
    | .error err => (some (.error err), conns1.decrement)
  | none => (none, conns)

/-- Outcome of one `Pool::connection` call, up to the point where the caller
either holds a `Live` record, got an error, or is enrolled as waiter `w`
awaiting delivery. -/
inductive AcquireOutcome (C E : Type) where
  | acquired (conn : Live C)
  | failed (e : Error E)
  | enrolled (w : Nat)
deriving Repr, DecidableEq

/-- The `Pool::connection` (src/src/lib.rs), under the coord mutex: fast path
`conns.get()`; on miss, `try_spawn_connection` (the pending `connect()` result is
`m.connectResults st.connectCalls`, and `connectCalls` advances exactly when
`connect()` was called, i.e. when the reservation succeeded); if the pool is at
cap, enroll a fresh one-shot sender at the tail of `waiters`
(`notify_of_connection` of the absent inner.rs, modelled from the spec: "pushes
a waiter sender to the tail of the FIFO"). -/
def connection {C E : Type} (m : Manager C E) (st : PoolSt C) (now : Nat) :
    AcquireOutcome C E × PoolSt C :=
  match st.conns.get with
  | (some conn, conns1) => (.acquired conn, { st with conns := conns1 })
  | (none, _) =>
    match try_spawn_connection st.max_size (m.connectResults st.connectCalls) st.conns now with
    | (some (.ok live), conns1) =>
      (.acquired live, { st with conns := conns1, connectCalls := st.connectCalls + 1 })
    | (some (.error e), conns1) =>
      (.failed e, { st with conns := conns1, connectCalls := st.connectCalls + 1 })
    | (none, conns1) =>
      (.enrolled st.nextWaiter,
        { st with
            conns := conns1
            waiters := st.waiters ++ [{ id := st.nextWaiter, alive := true }]
            nextWaiter := st.nextWaiter + 1 })

/-- The `collect::<Result<Vec<_>, _>>()` over the initial connect results
(src/src/lib.rs, `Pool::new`): short-circuits at the first error in completion
order. -/
def collectExcept {ε α : Type} : List (Except ε α) → Except ε (List α)
  | [] => .ok []
  | .error e :: _ => .error e
  | .ok a :: rest => (collectExcept rest).map (a :: ·)

/-- The first error of a list of results, if any. -/
def firstError {ε α : Type} : List (Except ε α) → Option ε
  | [] => none
  | .error e :: _ => some e
  | .ok _ :: rest => firstError rest

/-- Outcome of `Pool::new`: the `assert!` panics (it does not return an error
value), a failed initial connect propagates its error, otherwise a pool. -/
inductive NewOutcome (C E : Type) where
  | panicked (msg : String)
  | failed (e : Error E)
  | ok (st : PoolSt C)
deriving Repr, DecidableEq

/-- The `Pool::new` (src/src/lib.rs): `assert!(max_size >= min_size, ..)` — a panic,
not an error return — then `min_size` concurrent `connect()` calls whose results
arrive as the list `results` (in completion order; the source awaits a
`FuturesUnordered`), collected with short-circuit on the first error; the
successes are pushed through `new_conn` into a fresh `Queue`. -/
def Pool.new {C E : Type} (cfg : Config) (results : List (Except (Error E) C)) (now : Nat) :
    NewOutcome C E :=
  if cfg.max_size ≥ cfg.min_size then
    match collectExcept results with
    | .error e => .failed e
    | .ok conns =>
      .ok
        { conns := conns.foldl (fun q c => q.new_conn (Live.new c now) now) Queue.new
          waiters := []
          min_size := cfg.min_size
          max_size := cfg.max_size
          connectCalls := results.length
          nextWaiter := 0 }
  else
    .panicked "max_size of pool must be greater than or equal to the min_size"

/-- The `Conn<C>` (src/src/conn.rs), the user-facing handle: the publicly writable
slot holding the live record (`None` only during destruction under normal
operation) — the pool back-reference is not modelled, as no claim depends on it. -/
structure Conn (C : Type) where
  conn : Option (Live C)
deriving Repr, DecidableEq

/-- The `Option::unwrap`: the value on `Some`, a panic on `None`. -/
def unwrapOrPanic {α : Type} : Option α → Except String α
  | some a => .ok a
  | none => .error "called Option::unwrap() on a None value"

/-- The `Deref for Conn` (src/src/conn.rs): `&self.conn.as_ref().unwrap().conn`. -/
def Conn.derefImpl {C : Type} (c : Conn C) : Except String C :=
  (unwrapOrPanic c.conn).map (fun l => l.conn)

/-- The `DerefMut for Conn` (src/src/conn.rs): `&mut self.conn.as_mut().unwrap().conn`. -/
def Conn.derefMutImpl {C : Type} (c : Conn C) : Except String C :=
  (unwrapOrPanic c.conn).map (fun l => l.conn)

/-- The `Drop for Conn` (src/src/conn.rs): `self.conn.take().unwrap()`, then the
record is handed to `put_back`. Returns the taken record and the emptied slot. -/
def Conn.dropImpl {C : Type} (c : Conn C) : Except String (Live C × Conn C) :=
  (unwrapOrPanic c.conn).map (fun l => (l, { conn := none }))

/-- The tail of `Pool::connection` (src/src/lib.rs): a successful acquisition is
wrapped as `Conn { conn: Some(conn), pool: self.clone() }`. -/
def connectionConn {C E : Type} (m : Manager C E) (st : PoolSt C) (now : Nat) :
    Option (Conn C) × PoolSt C :=
  match connection m st now with
  | (.acquired l, st1) => (some { conn := some l }, st1)
  | (_, st1) => (none, st1)

/-- Operational model of a running pool: the shared pool state plus the list of
records currently held by outstanding `Conn` handles. -/
structure Sys (C : Type) where
  pool : PoolSt C
  handles : List (Live C)
deriving Repr, DecidableEq

/-- One step of the operational model: a whole `Pool::connection` call. A
successful acquisition appends the obtained record to the outstanding handles;
a failure changes no handle; an enrollment leaves the caller waiting. -/
def stepAcquire {C E : Type} (m : Manager C E) (s : Sys C) (now : Nat) : Sys C :=
  match connection m s.pool now with
  | (.acquired conn, st1) => { pool := st1, handles := s.handles ++ [conn] }
  | (.failed _, st1) => { pool := st1, handles := s.handles }
  | (.enrolled _, st1) => { pool := st1, handles := s.handles }

/-- One step of the operational model: destruction of the `i`-th outstanding
handle, which hands its record to `put_back`. A record delivered to a waiter
becomes that waiter's new handle; a stored or discarded record leaves no handle. -/
def stepRelease {C E : Type} (m : Manager C E) (s : Sys C) (i : Nat) (now : Nat) : Sys C :=
  match s.handles.get? i with
  | none => s
  | some conn =>
    match put_back m s.pool conn now with
    | (.delivered _, st1) => { pool := st1, handles := s.handles.eraseIdx i ++ [conn] }
    | (.discarded, st1) => { pool := st1, handles := s.handles.eraseIdx i }
    | (.stored, st1) => { pool := st1, handles := s.handles.eraseIdx i }

/-- Mark the `i`-th waiter's receiving end as dropped (the enrolled caller
abandoned the wait); its sender stays in the FIFO until `put_back` pops it. -/
def markDead : List Waiter → Nat → List Waiter
  | [], _ => []
  | w :: rest, 0 => { w with alive := false } :: rest
  | w :: rest, Nat.succ n => w :: markDead rest n

/-- One step of the operational model: an enrolled caller abandons its wait. -/
def stepCancel {C : Type} (s : Sys C) (i : Nat) : Sys C :=
  { s with pool := { s.pool with waiters := markDead s.pool.waiters i } }

/-- The states of the pool reachable from a successful `Pool::new` under any
sequence of acquires, handle destructions and waiter cancellations, with the
manager `m` answering every `connect()` and `has_broken` probe. -/
inductive Reachable {C E : Type} (m : Manager C E) : Sys C → Prop where
  | init (cfg : Config) (results : List (Except (Error E) C)) (now : Nat) (st : PoolSt C)
      (hmax : cfg.max_size < USIZE)
      (hlen : results.length = cfg.min_size)
      (hnew : Pool.new cfg results now = .ok st) :
      Reachable m { pool := st, handles := [] }
  | acquire (s : Sys C) (now : Nat) (h : Reachable m s) : Reachable m (stepAcquire m s now)
  | release (s : Sys C) (i now : Nat) (h : Reachable m s) : Reachable m (stepRelease m s i now)
  | cancel (s : Sys C) (i : Nat) (h : Reachable m s) : Reachable m (stepCancel s i)

/-- The inductive invariant of the pool: `idle_count` counts the idle store,
`total_count` counts idle plus checked-out records, the cap holds, and the cap
fits in a `usize`. -/
def Inv {C : Type} (s : Sys C) : Prop :=
  s.pool.conns.idle_count = s.pool.conns.idle.length ∧
  s.pool.conns.total_count = s.pool.conns.idle.length + s.handles.length ∧
  s.pool.conns.total_count ≤ s.pool.max_size ∧
  s.pool.max_size < USIZE

/-- A successful `connection()` immediately followed by destruction of the
returned handle (an acquire/drop pair, no overlap). -/
def acquireReleasePair {C E : Type} (m : Manager C E) (st : PoolSt C) (now : Nat) : PoolSt C :=
  match connection m st now with
  | (.acquired conn, st1) => (put_back m st1 conn now).2
  | (.failed _, st1) => st1
  | (.enrolled _, st1) => st1

/-- Iterate `n` successive acquire/drop pairs. -/
def iteratePairs {C E : Type} (m : Manager C E) (st : PoolSt C) (now : Nat) : Nat → PoolSt C
  | 0 => st
  | Nat.succ n => iteratePairs m (acquireReleasePair m st now) now n

/-- A manager whose sessions are `Unit`, every connect succeeds, nothing breaks. -/
def mUnit : Manager Unit Unit :=
  { connectResults := fun _ => .ok (), hasBroken := fun _ => false }

/-- A manager that reports every session broken. -/
def mBroken : Manager Unit Unit :=
  { connectResults := fun _ => .ok (), hasBroken := fun _ => true }

/-- A manager whose first connect fails externally and whose later connects
succeed. -/
def mFail : Manager Unit Unit :=
  { connectResults := fun n => if n = 0 then .error (.External ()) else .ok ()
    hasBroken := fun _ => false }

/-- A concrete pool state with one checked-out session and an empty idle store. -/
def stW : PoolSt Unit :=
  { conns := { idle := [], idle_count := 0, total_count := 1 }
    waiters := []
    min_size := 0
    max_size := 1
    connectCalls := 0
    nextWaiter := 0 }

/-- A concrete live record. -/
def connW : Live Unit := { conn := (), live_since := 0 }

/-- The pool state `Pool::new` builds for `min_size = 0, max_size = 1` (lazy pool). -/
def initLazy : PoolSt Unit :=
  { conns := { idle := [], idle_count := 0, total_count := 0 }
    waiters := []
    min_size := 0
    max_size := 1
    connectCalls := 0
    nextWaiter := 0 }

/-- The pool state `Pool::new` builds for `min_size = 1, max_size = 2` at time 0. -/
def initWarm : PoolSt Unit :=
  { conns :=
      { idle := [{ conn := { conn := (), live_since := 0 }, idle_since := 0 }]
        idle_count := 1
        total_count := 1 }
    waiters := []
    min_size := 1
    max_size := 2
    connectCalls := 1
    nextWaiter := 0 }

/-- The `Queue.safe_increment` succeeds exactly when the current count is below `max`. -/
theorem safe_increment_pos {C : Type} (q : Queue C) (max : Nat) (h : q.total_count < max) :
    q.safe_increment max = some { q with total_count := q.total_count + 1 } := by
  simp [Queue.safe_increment, h]

/-- The `Queue.safe_increment` fails and changes nothing when the count has reached `max`. -/
theorem safe_increment_neg {C : Type} (q : Queue C) (max : Nat) (h : max ≤ q.total_count) :
    q.safe_increment max = none := by
  simp [Queue.safe_increment, Nat.not_lt.mpr h]

/-- Claim C2: for every `max` and every current value `c` of `total_count`,
`safe_increment` increments `total_count` from `c` to `c + 1` exactly when
`c < max` (returning success, all other fields unchanged), and when
`total_count` has reached `max` it returns failure and leaves the queue
unchanged. -/
theorem claim_C2_safe_increment {C : Type} (q : Queue C) (max c : Nat)
    (h : q.total_count = c) :
    (c < max →
      q.safe_increment max = some { q with total_count := c + 1 }) ∧
    (max ≤ c → q.safe_increment max = none) := by
  constructor
  · intro hlt
    subst h
    exact safe_increment_pos q max hlt
  · intro hge
    subst h
    exact safe_increment_neg q max hge

/-- Witness for C2 at a concrete queue: at `total_count = 1`, `safe_increment 2`
succeeds and `safe_increment 1` fails. -/
theorem claim_C2_safe_increment_witness :
    let q : Queue Unit := { idle := [], idle_count := 0, total_count := 1 }
    q.safe_increment 2 = some { q with total_count := 2 } ∧ q.safe_increment 1 = none :=
  ⟨(claim_C2_safe_increment { idle := [], idle_count := 0, total_count := 1 } 2 1 rfl).1
      (by decide),
   (claim_C2_safe_increment { idle := [], idle_count := 0, total_count := 1 } 1 1 rfl).2
      (by decide)⟩

/-- Counterexample to claim C8 as stated: `Queue::decrement` is a bare
`fetch_sub(1, SeqCst)`, which wraps; called on a fresh queue whose
`total_count` is 0 it does not panic but sets `total_count` to
`usize::MAX = 2 ^ 64 - 1`, i.e. it wraps the counter around. -/
theorem claim_C8_counterexample :
    ((Queue.new : Queue Unit).decrement).total_count = 2 ^ 64 - 1 := by
  decide

/-- Claim C8 (amended): `Queue::decrement` never panics; it wraps. A decrement
from a positive `total_count` decrements by exactly one, and a decrement from 0
wraps the counter to `usize::MAX = 2 ^ 64 - 1` instead of panicking. -/
theorem claim_C8_decrement_wraps {C : Type} (q : Queue C) :
    (0 < q.total_count → q.decrement.total_count = q.total_count - 1) ∧
    (q.total_count = 0 → q.decrement.total_count = 2 ^ 64 - 1) := by
  constructor
  · intro h
    simp [Queue.decrement, usizeSub1, Nat.pos_iff_ne_zero.mp h]
  · intro h
    simp [Queue.decrement, usizeSub1, h, USIZE]

/-- Witness for the amended C8 at concrete queues with `total_count` 5 and 0. -/
theorem claim_C8_decrement_wraps_witness :
    ({ idle := [], idle_count := 0, total_count := 5 } : Queue Unit).decrement.total_count = 4 ∧
    ({ idle := [], idle_count := 0, total_count := 0 } : Queue Unit).decrement.total_count
      = 2 ^ 64 - 1 :=
  ⟨(claim_C8_decrement_wraps { idle := [], idle_count := 0, total_count := 5 }).1 (by decide),
   (claim_C8_decrement_wraps { idle := [], idle_count := 0, total_count := 0 }).2 rfl⟩

/-- Fast path of `connection`: a non-empty idle store serves its front element,
decrementing `idle_count` and touching nothing else. -/
theorem connection_fast {C E : Type} (m : Manager C E) (st : PoolSt C) (now : Nat)
    (i : Idle C) (rest : List (Idle C)) (hidle : st.conns.idle = i :: rest) :
    connection m st now
      = (.acquired i.conn,
         { st with conns :=
            { st.conns with idle := rest, idle_count := usizeSub1 st.conns.idle_count } }) := by
  simp [connection, Queue.get, hidle]

/-- Admission path of `connection` with a successful connect: the reservation
raises `total_count` by one and the fresh record is returned. -/
theorem connection_spawn_ok {C E : Type} (m : Manager C E) (st : PoolSt C) (now : Nat) (c : C)
    (hidle : st.conns.idle = [])
    (hcap : st.conns.total_count < st.max_size)
    (hok : m.connectResults st.connectCalls = .ok c) :
    connection m st now
      = (.acquired (Live.new c now),
         { st with
             conns := { st.conns with total_count := st.conns.total_count + 1 }
             connectCalls := st.connectCalls + 1 }) := by
  simp [connection, Queue.get, hidle, try_spawn_connection, Queue.safe_increment, hcap, hok]

/-- Admission path of `connection` with a failed connect: the reservation is
rolled back by `decrement`, so the queue is unchanged, and the error surfaces. -/
theorem connection_spawn_err {C E : Type} (m : Manager C E) (st : PoolSt C) (now : Nat)
    (e : Error E)
    (hidle : st.conns.idle = [])
    (hcap : st.conns.total_count < st.max_size)
    (herr : m.connectResults st.connectCalls = .error e) :
    connection m st now = (.failed e, { st with connectCalls := st.connectCalls + 1 }) := by
  have hsub : usizeSub1 (st.conns.total_count + 1) = st.conns.total_count := by
    simp [usizeSub1]
  simp only [connection, Queue.get, hidle, try_spawn_connection, Queue.safe_increment,
    hcap, if_true, herr, Queue.decrement, hsub, Prod.mk.injEq]
  constructor
  · trivial
  · rw [← hidle]

/-- Wait path of `connection`: at the cap with nothing idle, the caller enrolls
at the tail of the waiter FIFO and the queue is untouched. -/
theorem connection_enroll {C E : Type} (m : Manager C E) (st : PoolSt C) (now : Nat)
    (hidle : st.conns.idle = [])
    (hcap : st.max_size ≤ st.conns.total_count) :
    connection m st now
      = (.enrolled st.nextWaiter,
         { st with
             waiters := st.waiters ++ [{ id := st.nextWaiter, alive := true }]
             nextWaiter := st.nextWaiter + 1 }) := by
  simp [connection, Queue.get, hidle, try_spawn_connection, Queue.safe_increment,
    Nat.not_lt.mpr hcap]

/-- The `put_back` of a broken session: decrement `total_count`, drop the session. -/
theorem put_back_broken {C E : Type} (m : Manager C E) (st : PoolSt C) (conn : Live C)
    (now : Nat) (hb : m.hasBroken conn.conn = true) :
    put_back m st conn now = (.discarded, { st with conns := st.conns.decrement }) := by
  simp [put_back, hb]

/-- The `put_back` of a live session with a live waiter in the FIFO: deliver. -/
theorem put_back_delivered {C E : Type} (m : Manager C E) (st : PoolSt C) (conn : Live C)
    (now : Nat) (hb : m.hasBroken conn.conn = false) (w : Nat) (rest : List Waiter)
    (hpw : popWaiters st.waiters = (some w, rest)) :
    put_back m st conn now = (.delivered w, { st with waiters := rest }) := by
  simp [put_back, hb, hpw]

/-- The `put_back` of a live session with no live waiter: store it idle. -/
theorem put_back_stored {C E : Type} (m : Manager C E) (st : PoolSt C) (conn : Live C)
    (now : Nat) (hb : m.hasBroken conn.conn = false) (rest : List Waiter)
    (hpw : popWaiters st.waiters = (none, rest)) :
    put_back m st conn now
      = (.stored, { st with conns := st.conns.store conn now, waiters := rest }) := by
  simp [put_back, hb, hpw]

/-- Claim C3: on the admission path (idle store empty, pool below the cap), a
failed `manager.connect()` undoes the reservation with exactly one `decrement`
— the resulting pool state differs from the pre-acquire state only in the ghost
connect-call counter, so `total_count` is restored — and the external error is
propagated to the caller; a subsequent acquire whose connect succeeds then
acquires a connection. -/
theorem claim_C3_connect_fail_rollback {C E : Type} (m : Manager C E) (st : PoolSt C)
    (now : Nat) (e : Error E)
    (hidle : st.conns.idle = [])
    (hcap : st.conns.total_count < st.max_size)
    (herr : m.connectResults st.connectCalls = .error e) :
    connection m st now = (.failed e, { st with connectCalls := st.connectCalls + 1 }) ∧
    (∀ c : C, m.connectResults (st.connectCalls + 1) = .ok c →
      (connection m { st with connectCalls := st.connectCalls + 1 } now).1
        = .acquired (Live.new c now)) := by
  have hsub : usizeSub1 (st.conns.total_count + 1) = st.conns.total_count := by
    simp [usizeSub1]
  constructor
  · simp only [connection, Queue.get, hidle, try_spawn_connection, Queue.safe_increment,
      hcap, if_true, herr, Queue.decrement, hsub, Prod.mk.injEq]
    constructor
    · trivial
    · rw [← hidle]
  · intro c hok
    simp [connection, Queue.get, hidle, try_spawn_connection, Queue.safe_increment, hcap, hok]

/-- Witness for C3: a lazy pool (no idle connection, `total_count = 0 < 1 = max`)
whose first connect fails externally and whose second succeeds. -/
theorem claim_C3_connect_fail_rollback_witness :
    connection mFail initLazy 0
      = (.failed (.External ()), { initLazy with connectCalls := 1 }) ∧
    (connection mFail { initLazy with connectCalls := 1 } 0).1
      = .acquired (Live.new () 0) := by
  have h := claim_C3_connect_fail_rollback mFail initLazy 0 (.External ()) rfl (by decide) rfl
  exact ⟨h.1, h.2 () rfl⟩

/-- Claim C4: releasing a broken session decrements `total_count` exactly once
(by one, when positive) and leaves both the idle counter and the idle store
untouched, discarding the session; releasing a non-broken session never mutates
`total_count` and never calls `manager.connect()` (the ghost connect-call
counter is unchanged — `put_back` consults only `has_broken`). -/
theorem claim_C4_put_back_frame {C E : Type} (m : Manager C E) (st : PoolSt C)
    (conn : Live C) (now : Nat) :
    (m.hasBroken conn.conn = true →
      put_back m st conn now = (.discarded, { st with conns := st.conns.decrement }) ∧
      (st.conns.decrement).idle_count = st.conns.idle_count ∧
      (st.conns.decrement).idle = st.conns.idle ∧
      (0 < st.conns.total_count →
        (st.conns.decrement).total_count = st.conns.total_count - 1)) ∧
    (m.hasBroken conn.conn = false →
      (put_back m st conn now).2.conns.total_count = st.conns.total_count ∧
      (put_back m st conn now).2.connectCalls = st.connectCalls) := by
  constructor
  · intro hb
    refine ⟨by simp [put_back, hb], rfl, rfl, ?_⟩
    intro hpos
    simp [Queue.decrement, usizeSub1, Nat.pos_iff_ne_zero.mp hpos]
  · intro hb
    rcases hpw : popWaiters st.waiters with ⟨ow, rest⟩
    cases ow with
    | none => simp [put_back, hb, hpw, Queue.store]
    | some w => simp [put_back, hb, hpw]

/-- Witness for C4: a broken release from `total_count = 1` discards and leaves
`total_count = 0` with the idle side untouched; a non-broken release leaves
`total_count` and the connect-call count unchanged. -/
theorem claim_C4_put_back_frame_witness :
    put_back mBroken stW connW 0 = (.discarded, { stW with conns := stW.conns.decrement }) ∧
    (stW.conns.decrement).idle_count = stW.conns.idle_count ∧
    (stW.conns.decrement).total_count = stW.conns.total_count - 1 ∧
    (put_back mUnit stW connW 0).2.conns.total_count = stW.conns.total_count ∧
    (put_back mUnit stW connW 0).2.connectCalls = stW.connectCalls := by
  have hbrk := (claim_C4_put_back_frame mBroken stW connW 0).1 rfl
  have hok := (claim_C4_put_back_frame mUnit stW connW 0).2 rfl
  exact ⟨hbrk.1, hbrk.2.1, hbrk.2.2.2 (by decide), hok.1, hok.2⟩

/-- The function `popWaiters` pops every waiter when all receivers are dropped. -/
theorem popWaiters_all_dead :
    ∀ (ws : List Waiter), (∀ x ∈ ws, x.alive = false) → popWaiters ws = (none, [])
  | [], _ => rfl
  | w :: rest, h => by
    have hw : w.alive = false := h w (by simp)
    simp [popWaiters, hw, popWaiters_all_dead rest (fun x hx => h x (by simp [hx]))]

/-- The function `popWaiters` pops dead waiters off the front until the first live one, which
it delivers to, leaving the rest of the FIFO. -/
theorem popWaiters_first_alive :
    ∀ (pre : List Waiter) (w : Waiter) (post : List Waiter),
      (∀ x ∈ pre, x.alive = false) → w.alive = true →
      popWaiters (pre ++ w :: post) = (some w.id, post)
  | [], w, post, _, hw => by simp [popWaiters, hw]
  | x :: pre, w, post, hpre, hw => by
    have hx : x.alive = false := hpre x (by simp)
    simp [popWaiters, hx,
      popWaiters_first_alive pre w post (fun y hy => hpre y (by simp [hy])) hw]

/-- Claim C5: a non-broken release offers the same session to waiters popped
from the front of the FIFO, skipping (and dropping) those whose receivers are
gone, and stops at the first live waiter, which receives the session; if every
waiter's receiver is dropped (or the FIFO is empty), the session is pushed to
the idle store via `store`, which appends it to the store and increments
`idle_count` only, leaving `total_count` unchanged. -/
theorem claim_C5_release_waiters {C E : Type} (m : Manager C E) (st : PoolSt C)
    (conn : Live C) (now : Nat) (hb : m.hasBroken conn.conn = false) :
    (∀ pre w post, st.waiters = pre ++ w :: post → (∀ x ∈ pre, x.alive = false) →
      w.alive = true →
      put_back m st conn now = (.delivered w.id, { st with waiters := post })) ∧
    ((∀ x ∈ st.waiters, x.alive = false) →
      put_back m st conn now
        = (.stored, { st with conns := st.conns.store conn now, waiters := [] }) ∧
      (st.conns.store conn now).total_count = st.conns.total_count ∧
      (st.conns.store conn now).idle_count = (st.conns.idle_count + 1) % USIZE ∧
      (st.conns.store conn now).idle = st.conns.idle ++ [Idle.new conn now]) := by
  constructor
  · intro pre w post hsplit hpre hw
    simp [put_back, hb, hsplit, popWaiters_first_alive pre w post hpre hw]
  · intro hdead
    exact ⟨by simp [put_back, hb, popWaiters_all_dead st.waiters hdead], rfl, rfl, rfl⟩

/-- Witness for C5: with waiters `[dead, live, live]` the session goes to the
first live waiter (the dead one is dropped, the last one keeps waiting); with
waiters `[dead, dead]` the session is stored idle and `total_count` is
untouched. -/
theorem claim_C5_release_waiters_witness :
    put_back mUnit { stW with
        waiters := [{ id := 0, alive := false }, { id := 1, alive := true },
          { id := 2, alive := true }] } connW 0
      = (.delivered 1, { stW with waiters := [{ id := 2, alive := true }] }) ∧
    put_back mUnit { stW with
        waiters := [{ id := 0, alive := false }, { id := 3, alive := false }] } connW 0
      = (.stored, { stW with conns := stW.conns.store connW 0, waiters := [] }) ∧
    (stW.conns.store connW 0).total_count = stW.conns.total_count := by
  have h1 := (claim_C5_release_waiters mUnit { stW with
      waiters := [{ id := 0, alive := false }, { id := 1, alive := true },
        { id := 2, alive := true }] } connW 0 rfl).1
    [{ id := 0, alive := false }] { id := 1, alive := true } [{ id := 2, alive := true }]
    rfl (by decide) rfl
  have h2 := (claim_C5_release_waiters mUnit { stW with
      waiters := [{ id := 0, alive := false }, { id := 3, alive := false }] } connW 0 rfl).2
    (by decide)
  exact ⟨h1, h2.1, h2.2.1⟩

/-- A list of results whose first error is `e` collects to `Err(e)`. -/
theorem collectExcept_error_of_firstError {ε α : Type} :
    ∀ (rs : List (Except ε α)) (e : ε), firstError rs = some e → collectExcept rs = .error e
  | [], e, h => by simp [firstError] at h
  | .error x :: rest, e, h => by
    simp [firstError] at h
    simp [collectExcept, h]
  | .ok a :: rest, e, h => by
    have h1 : firstError rest = some e := h
    simp [collectExcept, collectExcept_error_of_firstError rest e h1, Except.map]

/-- Claim C6: when `min_size ≤ max_size` and any initial connect fails, the
first failure (in completion order) aborts `Pool::new`, which returns
`External(first-error)` and constructs no pool, so no session created by the
successful connects is retained. -/
theorem claim_C6_new_first_error {C E : Type} (cfg : Config)
    (results : List (Except (Error E) C)) (now : Nat) (e : E)
    (hcfg : cfg.min_size ≤ cfg.max_size)
    (hfe : firstError results = some (.External e)) :
    Pool.new cfg results now = (.failed (.External e) : NewOutcome C E) ∧
    ∀ st : PoolSt C, Pool.new cfg results now ≠ .ok st := by
  have hc := collectExcept_error_of_firstError results _ hfe
  constructor
  · simp [Pool.new, hcfg, hc]
  · intro st hst
    simp [Pool.new, hcfg, hc] at hst

/-- Witness for C6: three initial connects of which the second and third fail;
`new` fails with the second one's (the first failing) external error. -/
theorem claim_C6_new_first_error_witness :
    Pool.new { min_size := 3, max_size := 3 }
        [.ok (), .error (.External ()), .error (.Internal (.Other "x"))] 0
      = (.failed (.External ()) : NewOutcome Unit Unit) ∧
    ∀ st : PoolSt Unit,
      Pool.new { min_size := 3, max_size := 3 }
          [.ok (), .error (.External ()), .error (.Internal (.Other "x"))] 0 ≠ .ok st :=
  claim_C6_new_first_error { min_size := 3, max_size := 3 }
    [.ok (), .error (.External ()), .error (.Internal (.Other "x"))] 0 ()
    (by decide) (by decide)

/-- Counterexample to claim C7 as stated: with `max_size < min_size`,
`Pool::new` does not return an `InvalidConfig` error value — its `assert!`
panics (so the outcome is a panic with the assertion's message, not a `failed`
error). -/
theorem claim_C7_counterexample :
    Pool.new (C := Unit) (E := Unit) { min_size := 2, max_size := 1 } [] 0
      = .panicked "max_size of pool must be greater than or equal to the min_size" := by
  rfl

/-- Claim C7 (amended): for every config with `max_size < min_size`, `Pool::new`
panics via `assert!` (with the message below) rather than constructing a pool;
it does not return an error value. -/
theorem claim_C7_new_invalid_config_panics {C E : Type} (cfg : Config)
    (results : List (Except (Error E) C)) (now : Nat)
    (h : cfg.max_size < cfg.min_size) :
    Pool.new cfg results now
      = .panicked "max_size of pool must be greater than or equal to the min_size" := by
  simp [Pool.new, Nat.not_le.mpr h]

/-- Witness for the amended C7 at `min_size = 2, max_size = 1`. -/
theorem claim_C7_new_invalid_config_panics_witness :
    Pool.new (C := Unit) (E := Unit) { min_size := 2, max_size := 1 } [.ok ()] 0
      = .panicked "max_size of pool must be greater than or equal to the min_size" :=
  claim_C7_new_invalid_config_panics { min_size := 2, max_size := 1 } [.ok ()] 0 (by decide)

/-- Claim C10: every `Conn` produced by a successful `connection()` carries a
non-empty slot, on which `Deref`, `DerefMut` and `Drop` (which `unwrap` the
slot) succeed; on a `Conn` whose publicly writable slot is `None` each of them
panics. -/
theorem claim_C10_conn_slot {C E : Type} (m : Manager C E) (st : PoolSt C) (now : Nat)
    (c : Conn C) (st1 : PoolSt C)
    (h : connectionConn m st now = (some c, st1)) :
    (∃ l, c.conn = some l) ∧
    c.derefImpl.isOk = true ∧
    c.derefMutImpl.isOk = true ∧
    c.dropImpl.isOk = true ∧
    (∀ d : Conn C, d.conn = none →
      d.derefImpl = .error "called Option::unwrap() on a None value" ∧
      d.derefMutImpl = .error "called Option::unwrap() on a None value" ∧
      d.dropImpl = .error "called Option::unwrap() on a None value") := by
  have hc : ∃ l, c.conn = some l := by
    rcases hconn : connection m st now with ⟨out, st2⟩
    unfold connectionConn at h
    rw [hconn] at h
    cases out with
    | acquired l =>
      simp at h
      exact ⟨l, by rw [← h.1]⟩
    | failed e => simp at h
    | enrolled w => simp at h
  obtain ⟨l, hl⟩ := hc
  refine ⟨⟨l, hl⟩, ?_, ?_, ?_, ?_⟩
  · simp [Conn.derefImpl, unwrapOrPanic, hl, Except.map, Except.isOk, Except.toBool]
  · simp [Conn.derefMutImpl, unwrapOrPanic, hl, Except.map, Except.isOk, Except.toBool]
  · simp [Conn.dropImpl, unwrapOrPanic, hl, Except.map, Except.isOk, Except.toBool]
  · intro d hd
    exact ⟨by simp [Conn.derefImpl, unwrapOrPanic, hd, Except.map],
      by simp [Conn.derefMutImpl, unwrapOrPanic, hd, Except.map],
      by simp [Conn.dropImpl, unwrapOrPanic, hd, Except.map]⟩

/-- Witness for C10: acquiring from a warm pool yields a handle with a full
slot on which deref and drop succeed, and the unwrap of an emptied slot panics. -/
theorem claim_C10_conn_slot_witness :
    (∃ l, ({ conn := some { conn := (), live_since := 0 } } : Conn Unit).conn = some l) ∧
    ({ conn := some { conn := (), live_since := 0 } } : Conn Unit).derefImpl.isOk = true ∧
    ({ conn := some { conn := (), live_since := 0 } } : Conn Unit).derefMutImpl.isOk = true ∧
    ({ conn := some { conn := (), live_since := 0 } } : Conn Unit).dropImpl.isOk = true ∧
    (∀ d : Conn Unit, d.conn = none →
      d.derefImpl = .error "called Option::unwrap() on a None value" ∧
      d.derefMutImpl = .error "called Option::unwrap() on a None value" ∧
      d.dropImpl = .error "called Option::unwrap() on a None value") :=
  claim_C10_conn_slot mUnit initWarm 0 { conn := some { conn := (), live_since := 0 } }
    { initWarm with conns := { idle := [], idle_count := 0, total_count := 1 } } (by decide)

/-- A list of results that collects to `Ok` has as many successes as entries. -/
theorem collectExcept_ok_length {ε α : Type} :
    ∀ (rs : List (Except ε α)) (cs : List α), collectExcept rs = .ok cs → cs.length = rs.length
  | [], cs, h => by
    simp [collectExcept] at h
    simp [← h]
  | .error e :: rest, cs, h => by
    simp [collectExcept] at h
  | .ok a :: rest, cs, h => by
    cases hr : collectExcept rest with
    | error e => rw [collectExcept, hr] at h; simp [Except.map] at h
    | ok cs1 =>
      rw [collectExcept, hr] at h
      simp [Except.map] at h
      rw [← h]
      simp [collectExcept_ok_length rest cs1 hr]

/-- Warmup: folding `new_conn` over the initial connections yields a queue whose
idle store, `idle_count` and `total_count` all equal the number of connections
(counters stay below `USIZE`, so the wrapping adds are plain adds). -/
theorem warmup_fold {C : Type} (now : Nat) :
    ∀ (cs : List C) (q : Queue C),
      q.idle_count = q.idle.length →
      q.total_count = q.idle.length →
      q.idle.length + cs.length < USIZE →
      ((cs.foldl (fun a c => a.new_conn (Live.new c now) now) q).idle.length
          = q.idle.length + cs.length ∧
        (cs.foldl (fun a c => a.new_conn (Live.new c now) now) q).idle_count
          = q.idle.length + cs.length ∧
        (cs.foldl (fun a c => a.new_conn (Live.new c now) now) q).total_count
          = q.idle.length + cs.length)
  | [], q, hic, htc, _ => by simp [hic, htc]
  | c :: cs, q, hic, htc, hlt => by
    have hlt1 : q.idle.length + 1 < USIZE := by
      simp only [List.length_cons] at hlt
      omega
    have h1 : (q.new_conn (Live.new c now) now).idle.length = q.idle.length + 1 := by
      simp [Queue.new_conn, Queue.store, Queue.increment]
    have h2 : (q.new_conn (Live.new c now) now).idle_count = q.idle.length + 1 := by
      simp [Queue.new_conn, Queue.store, Queue.increment, usizeAdd1, hic,
        Nat.mod_eq_of_lt hlt1]
    have h3 : (q.new_conn (Live.new c now) now).total_count = q.idle.length + 1 := by
      simp [Queue.new_conn, Queue.store, Queue.increment, usizeAdd1, htc,
        Nat.mod_eq_of_lt hlt1]
    have hrec := warmup_fold now cs (q.new_conn (Live.new c now) now)
      (by rw [h2, h1]) (by rw [h3, h1])
      (by rw [h1]; simp only [List.length_cons] at hlt; omega)
    refine ⟨?_, ?_, ?_⟩
    · simp only [List.foldl]
      rw [hrec.1, h1]
      simp only [List.length_cons]
      omega
    · simp only [List.foldl]
      rw [hrec.2.1, h1]
      simp only [List.length_cons]
      omega
    · simp only [List.foldl]
      rw [hrec.2.2, h1]
      simp only [List.length_cons]
      omega

/-- The shape of a pool freshly built by a successful `Pool::new`: `min_size`
records idle, counters at `min_size`, no waiter, the configured cap. -/
theorem Pool.new_ok_fields {C E : Type} (cfg : Config) (results : List (Except (Error E) C))
    (now : Nat) (st : PoolSt C)
    (hmax : cfg.max_size < USIZE) (hlen : results.length = cfg.min_size)
    (hnew : Pool.new cfg results now = .ok st) :
    st.conns.idle.length = cfg.min_size ∧
    st.conns.idle_count = cfg.min_size ∧
    st.conns.total_count = cfg.min_size ∧
    st.waiters = [] ∧
    st.max_size = cfg.max_size ∧
    cfg.min_size ≤ cfg.max_size := by
  by_cases hcfg : cfg.min_size ≤ cfg.max_size
  · unfold Pool.new at hnew
    rw [if_pos hcfg] at hnew
    cases hcoll : collectExcept results with
    | error e => rw [hcoll] at hnew; cases hnew
    | ok cs =>
      rw [hcoll] at hnew
      have hcs : cs.length = cfg.min_size := by
        rw [collectExcept_ok_length results cs hcoll, hlen]
      have hw := warmup_fold now cs Queue.new (by simp [Queue.new]) (by simp [Queue.new])
        (by simp [Queue.new, hcs]; omega)
      have hbase : (Queue.new : Queue C).idle.length = 0 := rfl
      rw [hbase] at hw
      simp only [Nat.zero_add] at hw
      cases hnew
      refine ⟨?_, ?_, ?_, rfl, rfl, hcfg⟩
      · show (cs.foldl (fun a c => a.new_conn (Live.new c now) now) Queue.new).idle.length
          = cfg.min_size
        rw [hw.1, hcs]
      · show (cs.foldl (fun a c => a.new_conn (Live.new c now) now) Queue.new).idle_count
          = cfg.min_size
        rw [hw.2.1, hcs]
      · show (cs.foldl (fun a c => a.new_conn (Live.new c now) now) Queue.new).total_count
          = cfg.min_size
        rw [hw.2.2, hcs]
  · unfold Pool.new at hnew
    rw [if_neg hcfg] at hnew
    cases hnew

/-- The invariant `Inv` holds in the initial state produced by a successful `Pool::new`. -/
theorem Inv_init {C E : Type} (cfg : Config) (results : List (Except (Error E) C))
    (now : Nat) (st : PoolSt C)
    (hmax : cfg.max_size < USIZE) (hlen : results.length = cfg.min_size)
    (hnew : Pool.new cfg results now = .ok st) :
    Inv ({ pool := st, handles := [] } : Sys C) := by
  obtain ⟨f1, f2, f3, _, f5, f6⟩ := Pool.new_ok_fields cfg results now st hmax hlen hnew
  refine ⟨by rw [f2, f1], ?_, ?_, ?_⟩
  · show st.conns.total_count = st.conns.idle.length + ([] : List (Live C)).length
    rw [f3, f1]
    simp
  · show st.conns.total_count ≤ st.max_size
    rw [f3, f5]
    exact f6
  · show st.max_size < USIZE
    rw [f5]
    exact hmax

/-- The invariant `Inv` is preserved by a `connection()` call. -/
theorem Inv_stepAcquire {C E : Type} (m : Manager C E) (s : Sys C) (now : Nat) (h : Inv s) :
    Inv (stepAcquire m s now) := by
  obtain ⟨h1, h2, h3, h4⟩ := h
  cases hidle : s.pool.conns.idle with
  | cons i rest =>
    have hlen : s.pool.conns.idle.length = rest.length + 1 := by rw [hidle]; rfl
    unfold stepAcquire
    rw [connection_fast m s.pool now i rest hidle]
    refine ⟨?_, ?_, h3, h4⟩
    · show usizeSub1 s.pool.conns.idle_count = rest.length
      rw [h1, hlen]
      simp [usizeSub1]
    · show s.pool.conns.total_count = rest.length + (s.handles ++ [i.conn]).length
      rw [h2, hlen]
      simp only [List.length_append, List.length_cons, List.length_nil]
      omega
  | nil =>
    have hlen0 : s.pool.conns.idle.length = 0 := by rw [hidle]; rfl
    by_cases hcap : s.pool.conns.total_count < s.pool.max_size
    · cases hcr : m.connectResults s.pool.connectCalls with
      | ok c =>
        unfold stepAcquire
        rw [connection_spawn_ok m s.pool now c hidle hcap hcr]
        refine ⟨h1, ?_, ?_, h4⟩
        · show s.pool.conns.total_count + 1
            = s.pool.conns.idle.length + (s.handles ++ [Live.new c now]).length
          rw [h2]
          simp only [List.length_append, List.length_cons, List.length_nil]
          omega
        · show s.pool.conns.total_count + 1 ≤ s.pool.max_size
          omega
      | error e =>
        unfold stepAcquire
        rw [connection_spawn_err m s.pool now e hidle hcap hcr]
        exact ⟨h1, h2, h3, h4⟩
    · unfold stepAcquire
      rw [connection_enroll m s.pool now hidle (Nat.not_lt.mp hcap)]
      exact ⟨h1, h2, h3, h4⟩

/-- The invariant `Inv` is preserved by destruction of an outstanding handle. -/
theorem Inv_stepRelease {C E : Type} (m : Manager C E) (s : Sys C) (i now : Nat)
    (h : Inv s) : Inv (stepRelease m s i now) := by
  obtain ⟨h1, h2, h3, h4⟩ := h
  unfold stepRelease
  cases hget : s.handles.get? i with
  | none => exact ⟨h1, h2, h3, h4⟩
  | some conn =>
    dsimp only
    have hi : i < s.handles.length := (List.get?_eq_some.mp hget).1
    have hlen : (s.handles.eraseIdx i).length = s.handles.length - 1 := by
      rw [List.length_eraseIdx]
      simp [hi]
    cases hbr : m.hasBroken conn.conn with
    | true =>
      rw [put_back_broken m s.pool conn now hbr]
      refine ⟨h1, ?_, ?_, h4⟩
      · show usizeSub1 s.pool.conns.total_count
          = s.pool.conns.idle.length + (s.handles.eraseIdx i).length
        have hne : s.pool.conns.total_count ≠ 0 := by omega
        simp only [usizeSub1, hne, if_false]
        omega
      · show usizeSub1 s.pool.conns.total_count ≤ s.pool.max_size
        have hne : s.pool.conns.total_count ≠ 0 := by omega
        simp only [usizeSub1, hne, if_false]
        omega
    | false =>
      rcases hpw : popWaiters s.pool.waiters with ⟨ow, rest⟩
      cases ow with
      | some w =>
        rw [put_back_delivered m s.pool conn now hbr w rest hpw]
        refine ⟨h1, ?_, h3, h4⟩
        show s.pool.conns.total_count
          = s.pool.conns.idle.length + (s.handles.eraseIdx i ++ [conn]).length
        rw [h2]
        simp only [List.length_append, List.length_cons, List.length_nil]
        omega
      | none =>
        rw [put_back_stored m s.pool conn now hbr rest hpw]
        have hfit : s.pool.conns.idle.length + 1 < USIZE := by omega
        refine ⟨?_, ?_, h3, h4⟩
        · show usizeAdd1 s.pool.conns.idle_count
            = (s.pool.conns.idle ++ [Idle.new conn now]).length
          rw [h1]
          simp only [usizeAdd1, List.length_append, List.length_cons, List.length_nil]
          rw [Nat.mod_eq_of_lt hfit]
        · show s.pool.conns.total_count
            = (s.pool.conns.idle ++ [Idle.new conn now]).length + (s.handles.eraseIdx i).length
          rw [h2]
          simp only [List.length_append, List.length_cons, List.length_nil]
          omega

/-- The invariant `Inv` is untouched by a waiter cancellation. -/
theorem Inv_stepCancel {C : Type} (s : Sys C) (i : Nat) (h : Inv s) :
    Inv (stepCancel s i) := by
  obtain ⟨h1, h2, h3, h4⟩ := h
  exact ⟨h1, h2, h3, h4⟩

/-- Every reachable state satisfies the inductive invariant. -/
theorem Inv_reachable {C E : Type} (m : Manager C E) (s : Sys C) (h : Reachable m s) :
    Inv s := by
  induction h with
  | init cfg results now st hmax hlen hnew => exact Inv_init cfg results now st hmax hlen hnew
  | acquire s now _ ih => exact Inv_stepAcquire m s now ih
  | release s i now _ ih => exact Inv_stepRelease m s i now ih
  | cancel s i _ ih => exact Inv_stepCancel s i ih

/-- Claim C1: in every state reachable from construction under any sequence of
acquires (`connection()`), releases (`put_back` via handle destruction,
including broken-session discards) and waiter cancellations, the counters
satisfy `idle_count ≤ total_count ≤ max_size` (they are `Nat`, so `0 ≤`); in
particular no operation raises `total_count` above the configured `max_size`. -/
theorem claim_C1_counters_invariant {C E : Type} (m : Manager C E) (s : Sys C)
    (h : Reachable m s) :
    s.pool.conns.idle_count ≤ s.pool.conns.total_count ∧
    s.pool.conns.total_count ≤ s.pool.max_size := by
  obtain ⟨h1, h2, h3, _⟩ := Inv_reachable m s h
  constructor
  · omega
  · exact h3

/-- Witness for C1: the freshly constructed warm pool (`min 1, max 2`) is
reachable and satisfies the counter invariant. -/
theorem claim_C1_counters_invariant_witness :
    initWarm.conns.idle_count ≤ initWarm.conns.total_count ∧
    initWarm.conns.total_count ≤ initWarm.max_size :=
  claim_C1_counters_invariant mUnit { pool := initWarm, handles := [] }
    (Reachable.init { min_size := 1, max_size := 2 } [.ok ()] 0 initWarm
      (by decide) (by decide) (by decide))

/-- One non-overlapping acquire/drop pair on a quiescent pool (no waiter, at
least one idle connection, manager reporting nothing broken) restores
`total_count`, `idle_count` and the idle store's size, and leaves no waiter:
the acquire takes the fast path and the drop stores the session back. -/
theorem acquireReleasePair_spec {C E : Type} (m : Manager C E) (st : PoolSt C) (now : Nat)
    (hb : ∀ c, m.hasBroken c = false) (hw : st.waiters = [])
    (hic : st.conns.idle_count = st.conns.idle.length)
    (hne : st.conns.idle ≠ []) (hlt : st.conns.idle.length < USIZE) :
    (acquireReleasePair m st now).conns.total_count = st.conns.total_count ∧
    (acquireReleasePair m st now).conns.idle_count = st.conns.idle_count ∧
    (acquireReleasePair m st now).conns.idle.length = st.conns.idle.length ∧
    (acquireReleasePair m st now).waiters = [] ∧
    (acquireReleasePair m st now).conns.idle_count
      = (acquireReleasePair m st now).conns.idle.length := by
  cases hidle : st.conns.idle with
  | nil => exact absurd hidle hne
  | cons i rest =>
    have hlen : st.conns.idle.length = rest.length + 1 := by rw [hidle]; rfl
    have hlt1 : rest.length + 1 < USIZE := by rw [hlen] at hlt; exact hlt
    unfold acquireReleasePair
    rw [connection_fast m st now i rest hidle]
    dsimp only
    rw [put_back_stored m _ i.conn now (hb i.conn.conn) [] (by simp [hw, popWaiters])]
    refine ⟨rfl, ?_, ?_, rfl, ?_⟩
    · show usizeAdd1 (usizeSub1 st.conns.idle_count) = st.conns.idle_count
      rw [hic, hlen]
      simp only [usizeSub1, usizeAdd1, Nat.succ_ne_zero, if_false, Nat.add_sub_cancel]
      exact Nat.mod_eq_of_lt hlt1
    · show (rest ++ [Idle.new i.conn now]).length = (i :: rest).length
      simp
    · show usizeAdd1 (usizeSub1 st.conns.idle_count) = (rest ++ [Idle.new i.conn now]).length
      rw [hic, hlen]
      simp only [usizeSub1, usizeAdd1, Nat.succ_ne_zero, if_false, Nat.add_sub_cancel,
        List.length_append, List.length_cons, List.length_nil]
      rw [Nat.mod_eq_of_lt hlt1]

/-- Iterating acquire/drop pairs preserves the counters and the quiescent shape. -/
theorem iteratePairs_preserves {C E : Type} (m : Manager C E) (now : Nat)
    (hb : ∀ c, m.hasBroken c = false) :
    ∀ (n : Nat) (st : PoolSt C), st.waiters = [] →
      st.conns.idle_count = st.conns.idle.length →
      st.conns.idle ≠ [] → st.conns.idle.length < USIZE →
      (iteratePairs m st now n).conns.total_count = st.conns.total_count ∧
      (iteratePairs m st now n).conns.idle_count = st.conns.idle_count ∧
      (iteratePairs m st now n).conns.idle.length = st.conns.idle.length ∧
      (iteratePairs m st now n).waiters = []
  | 0, st, hw, _, _, _ => ⟨rfl, rfl, rfl, hw⟩
  | n + 1, st, hw, hic, hne, hlt => by
    have hp := acquireReleasePair_spec m st now hb hw hic hne hlt
    have hrec := iteratePairs_preserves m now hb n (acquireReleasePair m st now)
      hp.2.2.2.1
      hp.2.2.2.2
      (by
        intro hnil
        have h0 : (acquireReleasePair m st now).conns.idle.length = 0 := by rw [hnil]; rfl
        rw [hp.2.2.1] at h0
        exact hne (List.length_eq_zero.mp h0))
      (by rw [hp.2.2.1]; exact hlt)
    have hstep : iteratePairs m st now (n + 1)
        = iteratePairs m (acquireReleasePair m st now) now n := rfl
    rw [hstep]
    exact ⟨by rw [hrec.1, hp.1], by rw [hrec.2.1, hp.2.1],
      by rw [hrec.2.2.1, hp.2.2.1], hrec.2.2.2⟩

/-- Counterexample to claim C9 as stated: a lazily constructed pool
(`min_size = 0`, so post-construction `total_conns = idle_conns = 0`) subjected
to a single successful acquire/drop pair with a never-broken manager ends, at
quiescence, with `total_conns = idle_conns = 1`, not the initial 0: lazy growth
on the admission path is permanent. -/
theorem claim_C9_counterexample :
    Pool.new (C := Unit) (E := Unit) { min_size := 0, max_size := 1 } [] 0 = .ok initLazy ∧
    initLazy.conns.total_count = 0 ∧ initLazy.conns.idle_count = 0 ∧
    (acquireReleasePair mUnit initLazy 0).conns.total_count = 1 ∧
    (acquireReleasePair mUnit initLazy 0).conns.idle_count = 1 := by
  refine ⟨rfl, rfl, rfl, ?_, ?_⟩ <;> decide

/-- Claim C9 (amended): for any number of non-overlapping acquire/drop pairs on
a pool constructed with `min_size ≥ 1`, with a manager that never reports a
session broken, `total_conns` and `idle_conns` at quiescence equal their
post-construction values (each acquire then finds an idle connection, so no
lazy growth occurs). -/
theorem claim_C9_roundtrip {C E : Type} (m : Manager C E) (cfg : Config)
    (results : List (Except (Error E) C)) (now0 now : Nat) (st : PoolSt C) (n : Nat)
    (hb : ∀ c, m.hasBroken c = false)
    (hmin : 1 ≤ cfg.min_size)
    (hmax : cfg.max_size < USIZE)
    (hlen : results.length = cfg.min_size)
    (hnew : Pool.new cfg results now0 = .ok st) :
    (iteratePairs m st now n).conns.total_count = st.conns.total_count ∧
    (iteratePairs m st now n).conns.idle_count = st.conns.idle_count := by
  obtain ⟨f1, f2, f3, f4, f5, f6⟩ := Pool.new_ok_fields cfg results now0 st hmax hlen hnew
  have hne : st.conns.idle ≠ [] := by
    intro hnil
    rw [hnil] at f1
    simp at f1
    omega
  have hlt : st.conns.idle.length < USIZE := by
    rw [f1]
    omega
  have h := iteratePairs_preserves m now hb n st f4 (by rw [f2, f1]) hne hlt
  exact ⟨h.1, h.2.1⟩

/-- Witness for the amended C9: two pairs on the warm pool (`min 1, max 2`)
leave both counters at their post-construction value 1. -/
theorem claim_C9_roundtrip_witness :
    (iteratePairs mUnit initWarm 0 2).conns.total_count = initWarm.conns.total_count ∧
    (iteratePairs mUnit initWarm 0 2).conns.idle_count = initWarm.conns.idle_count :=
  claim_C9_roundtrip mUnit { min_size := 1, max_size := 2 } [.ok ()] 0 0 initWarm 2
    (fun c => rfl) (by decide) (by decide) (by decide) (by decide)

end L337
